import Mathlib

/-!
Verification development for `amc-trips.py`, a script that cross-references an
activity-leader registry with a trip listing, resolving free-text leader names
to canonical identities and attributing per-role trip credit.

The Python source is shallowly embedded below: pure string helpers become Lean
functions on `String`/`List Char`, the mutable `Leader` objects and the two
dictionaries that alias them (`leaders_by_name`, `leaders_by_id`) become a heap
(`store : List Leader`) with index-valued association lists, and Python
exceptions (`KeyError`, `IndexError`, `ValueError`, `StopIteration`) become an
`Except PyErr` result.
-/

set_option autoImplicit false

namespace AmcTrips

/-- Python exceptions that the embedded code can raise. -/
inductive PyErr where
  | keyError (k : String)
  | indexError
  | valueError
  | stopIteration
deriving DecidableEq, Repr

/-- ASCII model of Python `str.lower`, applied character by character. -/
def pyLower (s : String) : String :=
  String.mk (s.data.map Char.toLower)

/-- Python `str.replace(' ', '_')`: every space character (individually) becomes
an underscore. -/
def pyReplaceSpace (s : String) : String :=
  String.mk (s.data.map (fun c => if c = ' ' then '_' else c))

/-- `normalized_name` (source lines 19-22): lower-case the string and replace
spaces with underscores. -/
def normalized_name (name_string : String) : String :=
  pyReplaceSpace (pyLower name_string)

/-- Split a character list at every underscore. -/
def splitUnderscoreAux : List Char → List Char → List (List Char)
  | [], acc => [acc.reverse]
  | c :: cs, acc =>
    if c = '_' then acc.reverse :: splitUnderscoreAux cs []
    else splitUnderscoreAux cs (c :: acc)

/-- Python `s.split('_')` (no maxsplit): always at least one part. -/
def pySplitAll (s : String) : List String :=
  (splitUnderscoreAux s.data []).map String.mk

/-- Join strings with a single underscore between them. -/
def joinUnderscore : List String → String
  | [] => ""
  | [x] => x
  | x :: xs => x ++ "_" ++ joinUnderscore xs

/-- Python `s.split('_', 2)`: at most two cuts, so at most three parts, the
third keeping any further underscores. -/
def pySplit2 (s : String) : List String :=
  match pySplitAll s with
  | a :: b :: c :: rest => [a, b, joinUnderscore (c :: rest)]
  | l => l

/-- Python `str.capitalize`: first character upper-cased, the rest lower-cased. -/
def pyCapitalize (s : String) : String :=
  match s.data with
  | [] => ""
  | c :: cs => String.mk (c.toUpper :: cs.map Char.toLower)

/-- A Leader's identifier: registry rows carry the `ConstituentID` CSV field (a
Python `str`) while synthesized identities get a negative Python `int`; the two
kinds live in the same dictionaries. -/
inductive IdVal where
  | ofString (s : String)
  | ofInt (n : Int)
deriving DecidableEq, Repr

/-- The `Leader` class state (source lines 43-55). Counters are non-negative.
`trip_dates` models the Python `set` as a duplicate-free insertion list: the
code only ever adds a date after checking it is absent. -/
structure Leader where
  id_num : IdVal
  known : Bool
  email : String
  names : List String
  committees : List String
  trip_dates : List String
  trips_as_leader : Nat
  trips_as_coleader : Nat
  trips_cancelled : Nat
deriving DecidableEq, Repr

/-- `Leader.__init__` (source lines 43-55): fresh counters, `known = True`,
email lower-cased when non-empty. -/
def Leader.init (id_num : IdVal) (email : String) : Leader :=
  { id_num := id_num
    known := true
    email := if 0 < email.length then pyLower email else email
    names := []
    committees := []
    trip_dates := []
    trips_as_leader := 0
    trips_as_coleader := 0
    trips_cancelled := 0 }

/-- Result of `Leader.split_name` (source lines 30-41): a string without an
underscore is returned unsplit (a raw `str`), otherwise a list of up to three
capitalized parts. -/
inductive SplitRes where
  | raw (s : String)
  | parts (l : List String)
deriving DecidableEq, Repr

/-- `Leader.split_name` (source lines 30-41). -/
def Leader.split_name (name_string : String) : SplitRes :=
  if '_' ∈ name_string.data then
    SplitRes.parts ((pySplit2 name_string).map pyCapitalize)
  else
    SplitRes.raw name_string

/-- `Leader.primary_name` (source lines 57-58). -/
def Leader.primary_name (l : Leader) : String :=
  match l.names with
  | [] => ""
  | n :: _ => n

/-- `Leader.add_name` (source lines 76-86): no-op when first and last name are
both empty; otherwise the space-joined full name is normalized and appended to
`names` when new. (The source also returns the normalized full name, which
every caller discards.) -/
def Leader.add_name (l : Leader) (fname lname mi : String) : Leader :=
  if fname.length = 0 ∧ lname.length = 0 then l
  else
    let fullname :=
      if 0 < mi.length then normalized_name (fname ++ " " ++ mi ++ " " ++ lname)
      else normalized_name (fname ++ " " ++ lname)
    if fullname ∈ l.names then l else { l with names := l.names ++ [fullname] }

/-- `Leader.add_committee` (source lines 88-91). -/
def Leader.add_committee (l : Leader) (committee_name : String) : Leader :=
  if committee_name ∈ l.committees then l
  else { l with committees := l.committees ++ [committee_name] }

/-- `Leader.add_leader_credit` (source lines 93-100): duplicate date →
unchanged (a message is printed and the object returned as-is); otherwise
increment `trips_as_leader` and record the date. -/
def Leader.add_leader_credit (l : Leader) (tripdate : String) : Leader :=
  if tripdate ∈ l.trip_dates then l
  else { l with trips_as_leader := l.trips_as_leader + 1
                trip_dates := l.trip_dates ++ [tripdate] }

/-- `Leader.add_coleader_credit` (source lines 102-109). -/
def Leader.add_coleader_credit (l : Leader) (tripdate : String) : Leader :=
  if tripdate ∈ l.trip_dates then l
  else { l with trips_as_coleader := l.trips_as_coleader + 1
                trip_dates := l.trip_dates ++ [tripdate] }

/-- The unguarded cancellation credit `leader.trips_cancelled += 1` applied by
`analyze_trips` (source lines 282-283 and 305-306). -/
def Leader.cancel_credit (l : Leader) : Leader :=
  { l with trips_cancelled := l.trips_cancelled + 1 }

/-- `Leader.active` (source lines 111-115). -/
def Leader.active (l : Leader) : Nat :=
  l.trips_as_leader + l.trips_as_coleader

/-- `Leader.fname` (source lines 117-124). Python indexes the `split_name`
result with `[0]`, which on the raw-string branch yields the first character
as a one-character string (or raises `IndexError` on an empty string). -/
def Leader.fname (l : Leader) : Except PyErr String :=
  match l.names with
  | [] => Except.ok ""
  | name :: _ =>
    match Leader.split_name name with
    | SplitRes.parts ps =>
      match ps with
      | [] => Except.error PyErr.indexError
      | p :: _ => Except.ok p
    | SplitRes.raw s =>
      match s.data with
      | [] => Except.error PyErr.indexError
      | c :: _ => Except.ok (String.mk [c])

/-- Python `xs[i]` on a list, raising `IndexError` when out of range. -/
def pyIndex {α : Type} (xs : List α) (i : Nat) : Except PyErr α :=
  match xs.get? i with
  | some x => Except.ok x
  | none => Except.error PyErr.indexError

/-- `Leader.lname` (source lines 126-138): two parts → second, otherwise third.
On the raw-string branch Python's `len` counts characters and indexing yields a
one-character string. -/
def Leader.lname (l : Leader) : Except PyErr String :=
  match l.names with
  | [] => Except.ok ""
  | name :: _ =>
    match Leader.split_name name with
    | SplitRes.parts ps =>
      if ps.length = 2 then pyIndex ps 1 else pyIndex ps 2
    | SplitRes.raw s =>
      if s.length = 2 then (pyIndex s.data 1).map (fun c => String.mk [c])
      else (pyIndex s.data 2).map (fun c => String.mk [c])

/-! ### Python dictionaries as association lists -/

/-- Association list standing in for a Python `dict`. -/
abbrev Dict (α β : Type) := List (α × β)

/-- Python `d[k]` as an `Option` (`d.get(k)`). -/
def dictGet {α β : Type} [DecidableEq α] : Dict α β → α → Option β
  | [], _ => none
  | (k, v) :: rest, key => if k = key then some v else dictGet rest key

/-- Python `d[k] = v`: overwrite the existing binding or append a new one. -/
def dictSet {α β : Type} [DecidableEq α] : Dict α β → α → β → Dict α β
  | [], key, val => [(key, val)]
  | (k, v) :: rest, key, val =>
    if k = key then (key, val) :: rest else (k, v) :: dictSet rest key val

/-- Python `d[k]` on a string-keyed row dictionary, raising `KeyError`. -/
def dictGetE (d : Dict String String) (k : String) : Except PyErr String :=
  match dictGet d k with
  | some v => Except.ok v
  | none => Except.error (PyErr.keyError k)

/-- `dictify` (source lines 142-155): pair header fields with row values, or
return the empty dictionary when the field counts differ. -/
def dictify (field_names field_values : List String) : Dict String String :=
  if field_values.length ≠ field_names.length then []
  else (field_names.zip field_values).foldl (fun d kv => dictSet d kv.1 kv.2) []

/-! ### The leader registry

Python keeps `Leader` objects on the heap, aliased by the two dictionaries
`leaders_by_id` and `leaders_by_name`. We model the heap as `store` (a list of
leaders; a "reference" is an index into it) and the dictionaries map to
indices, so that a mutation through one alias is visible through all. -/

/-- The pair of dictionaries built by `load_leaders` plus the heap of `Leader`
objects they alias. -/
structure Registry where
  store : List Leader
  byName : Dict String Nat
  byId : Dict IdVal Nat
deriving DecidableEq, Repr

/-- The empty registry. -/
def Registry.empty : Registry := { store := [], byName := [], byId := [] }

/-- Replace the element at an index, leaving the list unchanged when out of
range (indices produced by the embedding are always in range). -/
def listModify {α : Type} : List α → Nat → (α → α) → List α
  | [], _, _ => []
  | x :: xs, 0, f => f x :: xs
  | x :: xs, i + 1, f => x :: listModify xs i f

/-- Mutate the leader object at heap index `idx`. -/
def Registry.modifyAt (reg : Registry) (idx : Nat) (f : Leader → Leader) : Registry :=
  { reg with store := listModify reg.store idx f }

/-- A junk default used only for total indexing; unreachable on the inputs the
embedding produces. -/
def dummyLeader : Leader := Leader.init (IdVal.ofInt 0) ""

/-- Look up or create the `Leader` for a registry row's `ConstituentID` (source
lines 177-184): reuse the existing heap entry on a duplicate ID, otherwise
append a fresh known `Leader` (reading the row's `Email`) and index it by ID. -/
def leaderForId (reg : Registry) (row_dict : Dict String String) (this_id : String) :
    Except PyErr (Registry × Nat) :=
  match dictGet reg.byId (IdVal.ofString this_id) with
  | some idx => Except.ok (reg, idx)
  | none =>
    match dictGetE row_dict "Email" with
    | Except.error e => Except.error e
    | Except.ok this_email =>
      Except.ok ({ reg with
                    store := reg.store ++ [Leader.init (IdVal.ofString this_id) this_email],
                    byId := dictSet reg.byId (IdVal.ofString this_id) reg.store.length },
                 reg.store.length)

/-- One iteration of the `load_leaders` row loop (source lines 170-192): skip a
row whose dictified form is empty; otherwise resolve the `ConstituentID`,
apply `add_name` for the current and the "RE" name triples, re-register every
name of the leader in the by-name index, and record the committee. -/
def leaderRowStep (fields : List String) (reg : Registry) (row : List String) :
    Except PyErr Registry :=
  let row_dict := dictify fields row
  if row_dict.length ≠ 0 then
    match dictGetE row_dict "ConstituentID" with
    | Except.error e => Except.error e
    | Except.ok this_id =>
      match leaderForId reg row_dict this_id with
      | Except.error e => Except.error e
      | Except.ok (reg1, idx) =>
        match dictGetE row_dict "FirstName", dictGetE row_dict "LastName",
            dictGetE row_dict "MiddleInitial" with
        | Except.ok fn, Except.ok ln, Except.ok mi =>
          let reg2 := reg1.modifyAt idx (fun l => l.add_name fn ln mi)
          (match dictGetE row_dict "REFirstName", dictGetE row_dict "RELastName",
              dictGetE row_dict "REMiddleInitial" with
           | Except.ok rfn, Except.ok rln, Except.ok rmi =>
             let reg3 := reg2.modifyAt idx (fun l => l.add_name rfn rln rmi)
             let names := (reg3.store.getD idx dummyLeader).names
             let reg4 := { reg3 with
               byName := names.foldl (fun bn n => dictSet bn n idx) reg3.byName }
             (match dictGetE row_dict "Committee" with
              | Except.error e => Except.error e
              | Except.ok committee =>
                Except.ok (reg4.modifyAt idx (fun l => l.add_committee committee)))
           | Except.error e, _, _ => Except.error e
           | _, Except.error e, _ => Except.error e
           | _, _, Except.error e => Except.error e)
        | Except.error e, _, _ => Except.error e
        | _, Except.error e, _ => Except.error e
        | _, _, Except.error e => Except.error e
  else
    Except.ok reg

/-- The `load_leaders` row loop over the remaining rows. -/
def loadLeadersLoop (fields : List String) : Registry → List (List String) →
    Except PyErr Registry
  | reg, [] => Except.ok reg
  | reg, row :: rows =>
    match leaderRowStep fields reg row with
    | Except.ok reg' => loadLeadersLoop fields reg' rows
    | Except.error e => Except.error e

/-- `load_leaders` (source lines 158-197): the first row is the header (its
absence raises `StopIteration` in Python), the rest are data rows. -/
def load_leaders (rows : List (List String)) : Except PyErr Registry :=
  match rows with
  | [] => Except.error PyErr.stopIteration
  | fields :: rest => loadLeadersLoop fields Registry.empty rest

/-! ### Trip loading -/

/-- Calendar date, compared year-month-day lexicographically (the order
`datetime` objects carry). -/
structure Date where
  year : Nat
  month : Nat
  day : Nat
deriving DecidableEq, Repr

/-- Strict `<` on dates. -/
def dateLt (a b : Date) : Bool :=
  a.year < b.year ∨ (a.year = b.year ∧
    (a.month < b.month ∨ (a.month = b.month ∧ a.day < b.day)))

/-- `dt.datetime(dt.MAXYEAR, 12, 31)`, the sentinel initial earliest trip. -/
def earliestInit : Date := { year := 9999, month := 12, day := 31 }

/-- `dt.datetime(dt.MINYEAR, 1, 1)`, the sentinel initial latest trip. -/
def latestInit : Date := { year := 1, month := 1, day := 1 }

/-- Split a character list at every slash. -/
def splitSlashAux : List Char → List Char → List (List Char)
  | [], acc => [acc.reverse]
  | c :: cs, acc =>
    if c = '/' then acc.reverse :: splitSlashAux cs []
    else splitSlashAux cs (c :: acc)

/-- Decimal-digit run to a number, accumulator style; `none` on a non-digit. -/
def parseDigitsAux : List Char → Nat → Option Nat
  | [], acc => some acc
  | c :: cs, acc =>
    if c.isDigit then parseDigitsAux cs (acc * 10 + (c.toNat - 48)) else none

/-- A non-empty all-digit character run as a number. -/
def parseDigits : List Char → Option Nat
  | [] => none
  | cs => parseDigitsAux cs 0

/-- Model of the Python stdlib call `dt.datetime.strptime(s, '%m/%d/%Y')`:
three slash-separated digit groups, month 1-12 and day 1-31 (month-specific
day limits are not modelled), anything else raises `ValueError`. -/
def strptimeMDY (s : String) : Except PyErr Date :=
  match splitSlashAux s.data [] with
  | [ms, ds, ys] =>
    match parseDigits ms, parseDigits ds, parseDigits ys with
    | some m, some d, some y =>
      if 1 ≤ m ∧ m ≤ 12 ∧ 1 ≤ d ∧ d ≤ 31 then Except.ok { year := y, month := m, day := d }
      else Except.error PyErr.valueError
    | _, _, _ => Except.error PyErr.valueError
  | _ => Except.error PyErr.valueError

/-- The local state of `load_trips` (source lines 200-208). -/
structure TripStats where
  active_committees : Dict String Nat
  trips : List (Dict String String)
  open_trips : Nat
  cancelled_trips : Nat
  waitlisted_trips : Nat
  full_trips : Nat
  earliest_trip : Date
  latest_trip : Date
deriving DecidableEq, Repr

/-- Initial `load_trips` state. -/
def TripStats.init : TripStats :=
  { active_committees := []
    trips := []
    open_trips := 0
    cancelled_trips := 0
    waitlisted_trips := 0
    full_trips := 0
    earliest_trip := earliestInit
    latest_trip := latestInit }

/-- One iteration of the `load_trips` row loop (source lines 215-241), in the
source's statement order: the row dictionary is appended to `trips` before any
field is read, so an empty dictionary from a malformed row reaches the
`this_trip['Committee']` lookup and raises `KeyError`. -/
def tripRowStep (fields : List String) (st : TripStats) (row : List String) :
    Except PyErr TripStats :=
  let this_trip := dictify fields row
  let st1 := { st with trips := st.trips ++ [this_trip] }
  match dictGetE this_trip "Committee" with
  | Except.error e => Except.error e
  | Except.ok this_committee =>
    let st2 := { st1 with active_committees :=
      (match dictGet st1.active_committees this_committee with
       | some n => dictSet st1.active_committees this_committee (n + 1)
       | none => dictSet st1.active_committees this_committee 1) }
    match dictGetE this_trip "TripStartDate" with
    | Except.error e => Except.error e
    | Except.ok dateStr =>
      match strptimeMDY dateStr with
      | Except.error e => Except.error e
      | Except.ok this_date =>
        let st3 := { st2 with
          earliest_trip :=
            if dateLt this_date st2.earliest_trip then this_date else st2.earliest_trip,
          latest_trip :=
            if dateLt st2.latest_trip this_date then this_date else st2.latest_trip }
        match dictGetE this_trip "TripStatus" with
        | Except.error e => Except.error e
        | Except.ok this_status =>
          Except.ok
            (if this_status = "O" then { st3 with open_trips := st3.open_trips + 1 }
             else if this_status = "C" then
               { st3 with cancelled_trips := st3.cancelled_trips + 1 }
             else if this_status = "W" then
               { st3 with waitlisted_trips := st3.waitlisted_trips + 1 }
             else if this_status = "F" then { st3 with full_trips := st3.full_trips + 1 }
             else st3)

/-- The `load_trips` row loop over the remaining rows. -/
def loadTripsLoop (fields : List String) : TripStats → List (List String) →
    Except PyErr TripStats
  | st, [] => Except.ok st
  | st, row :: rows =>
    match tripRowStep fields st row with
    | Except.ok st' => loadTripsLoop fields st' rows
    | Except.error e => Except.error e

/-- `load_trips` (source lines 199-246): header row first, then the data rows.
(The source returns only `trips`; we keep the whole local state observable.) -/
def load_trips (rows : List (List String)) : Except PyErr TripStats :=
  match rows with
  | [] => Except.error PyErr.stopIteration
  | fields :: rest => loadTripsLoop fields TripStats.init rest

/-! ### Trip analysis -/

/-- Which slot kind is being processed: a `TripLeaderN` field or a
`TripCoLeaderN` field. -/
inductive Role where
  | lead
  | colead
deriving DecidableEq, Repr

/-- The local state of `analyze_trips`: the registry (mutated in place) and the
`next_fake_ID` counter (source line 254). -/
structure AState where
  reg : Registry
  next_fake_ID : Int
deriving DecidableEq, Repr

/-- The credit applied once a slot's leader is resolved (source lines 282-285
and 305-308): cancelled trips increment `trips_cancelled` unconditionally,
anything else goes through the role's guarded credit. -/
def creditStep (role : Role) (status trip_date : String) (idx : Nat) (st : AState) : AState :=
  { st with reg := st.reg.modifyAt idx (fun l =>
      if status = "C" then l.cancel_credit
      else
        match role with
        | Role.lead => l.add_leader_credit trip_date
        | Role.colead => l.add_coleader_credit trip_date) }

/-- Registration of a freshly synthesized leader (source lines 276-279 and
299-302): mark it unknown, append it to the heap, point both dictionaries at
it, decrement the synthetic-ID counter. -/
def synthRegister (st : AState) (normalized : String) (leader1 : Leader) : AState :=
  { reg := { store := st.reg.store ++ [{ leader1 with known := false }],
             byName := dictSet st.reg.byName normalized st.reg.store.length,
             byId := dictSet st.reg.byId (IdVal.ofInt st.next_fake_ID) st.reg.store.length },
    next_fake_ID := st.next_fake_ID - 1 }

/-- Processing of one (co)leader slot of one trip (source lines 263-285 for
leader slots, 286-308 for co-leader slots — the two bodies are identical except
for the credited counter). A blank name is skipped; an unknown name is
synthesized as `Leader(next_fake_ID, '')` with its name derived from the
underscore split of the key: the source's `if len(parts) == 2` branch becomes
the two-part case, its `else` branch evaluates `parts[2]`, which succeeds on a
three-part split and raises `IndexError` on a one-part split (a key with no
underscore). -/
def processSlot (role : Role) (status trip_date name : String) (st : AState) :
    Except PyErr AState :=
  if 0 < name.length then
    let normalized := normalized_name name
    match dictGet st.reg.byName normalized with
    | some idx => Except.ok (creditStep role status trip_date idx st)
    | none =>
      let leader0 := Leader.init (IdVal.ofInt st.next_fake_ID) ""
      match pySplit2 normalized with
      | [p0, p1] =>
        Except.ok (creditStep role status trip_date st.reg.store.length
          (synthRegister st normalized (leader0.add_name p0 p1 "")))
      | [p0, p1, p2] =>
        Except.ok (creditStep role status trip_date st.reg.store.length
          (synthRegister st normalized (leader0.add_name p0 p2 p1)))
      | _ => Except.error PyErr.indexError
  else
    Except.ok st

/-- Process a list of slot names of one role, left to right. -/
def processSlots (role : Role) (status trip_date : String) :
    AState → List String → Except PyErr AState
  | st, [] => Except.ok st
  | st, name :: names =>
    match processSlot role status trip_date name st with
    | Except.ok st' => processSlots role status trip_date st' names
    | Except.error e => Except.error e

/-- One iteration of the `analyze_trips` trip loop (source lines 256-308), with
the source's field-access order: status, date, the four leader fields, the two
co-leader fields, then the two slot loops. -/
def processTrip (st : AState) (trip : Dict String String) : Except PyErr AState :=
  match dictGetE trip "TripStatus" with
  | Except.error e => Except.error e
  | Except.ok status =>
    match dictGetE trip "TripStartDate" with
    | Except.error e => Except.error e
    | Except.ok trip_date =>
      match dictGetE trip "TripLeader1", dictGetE trip "TripLeader2",
          dictGetE trip "TripLeader3", dictGetE trip "TripLeader4" with
      | Except.ok l1, Except.ok l2, Except.ok l3, Except.ok l4 =>
        (match dictGetE trip "TripCoLeader1", dictGetE trip "TripCoLeader2" with
         | Except.ok c1, Except.ok c2 =>
           (match processSlots Role.lead status trip_date st [l1, l2, l3, l4] with
            | Except.error e => Except.error e
            | Except.ok st' => processSlots Role.colead status trip_date st' [c1, c2])
         | Except.error e, _ => Except.error e
         | _, Except.error e => Except.error e)
      | Except.error e, _, _, _ => Except.error e
      | _, Except.error e, _, _ => Except.error e
      | _, _, Except.error e, _ => Except.error e
      | _, _, _, Except.error e => Except.error e

/-- The `analyze_trips` trip loop. -/
def analyzeLoop : AState → List (Dict String String) → Except PyErr AState
  | st, [] => Except.ok st
  | st, trip :: trips =>
    match processTrip st trip with
    | Except.ok st' => analyzeLoop st' trips
    | Except.error e => Except.error e

/-- `analyze_trips` (source lines 252-308): `next_fake_ID` starts at `-1`; the
registry dictionaries are mutated in place, so the updated registry is the
result. -/
def analyze_trips (trips : List (Dict String String)) (reg : Registry) :
    Except PyErr Registry :=
  match analyzeLoop { reg := reg, next_fake_ID := -1 } trips with
  | Except.ok st => Except.ok st.reg
  | Except.error e => Except.error e

/-! ### Main program control flow -/

/-- The observable outcome of one run of the script's `__main__` body. -/
structure RunOutcome where
  loadedRegistry : Option Registry
  loadedTrips : Option TripStats
  analyzed : Bool
  leaderTableWritten : Bool
  committeeTableWritten : Bool
deriving DecidableEq, Repr

/-- The `__main__` body (source lines 310-358) for a run whose two file paths
exist and are readable, abstracting each file as its list of CSV rows. After
`load_trips` returns, line 334 executes a bare `exit()`: the analysis step, the
leader-summary write and the committee-summary write below it are unreachable
(and the unreachable code references the undefined names `trip_file_base` and
`Active_Committees`). A load error aborts the run with nothing further
executed. -/
def mainRun (leaderRows tripRows : List (List String)) : RunOutcome :=
  match load_leaders leaderRows with
  | Except.error _ =>
    { loadedRegistry := none, loadedTrips := none, analyzed := false,
      leaderTableWritten := false, committeeTableWritten := false }
  | Except.ok reg =>
    match load_trips tripRows with
    | Except.error _ =>
      { loadedRegistry := some reg, loadedTrips := none, analyzed := false,
        leaderTableWritten := false, committeeTableWritten := false }
    | Except.ok st =>
      { loadedRegistry := some reg, loadedTrips := some st, analyzed := false,
        leaderTableWritten := false, committeeTableWritten := false }

/-! ### Credit-operation sequences (for the ledger invariant) -/

/-- One ledger operation applied to a leader during trip analysis. -/
inductive CreditOp where
  | lead (d : String)
  | colead (d : String)
  | cancel
deriving DecidableEq, Repr

/-- Apply one ledger operation. -/
def applyCreditOp (l : Leader) : CreditOp → Leader
  | CreditOp.lead d => l.add_leader_credit d
  | CreditOp.colead d => l.add_coleader_credit d
  | CreditOp.cancel => l.cancel_credit

/-- The ledger invariant: role credits sum to the number of credited dates, and
the credited-date list is duplicate-free (so its length is the cardinality of
the date set it models). -/
def creditInv (l : Leader) : Prop :=
  l.trips_as_leader + l.trips_as_coleader = l.trip_dates.length ∧ l.trip_dates.Nodup

lemma creditInv_apply (l : Leader) (op : CreditOp) (h : creditInv l) :
    creditInv (applyCreditOp l op) := by
  obtain ⟨hsum, hnd⟩ := h
  cases op with
  | lead d =>
    by_cases hd : d ∈ l.trip_dates
    · simpa [applyCreditOp, Leader.add_leader_credit, hd, creditInv] using ⟨hsum, hnd⟩
    · refine ⟨?_, ?_⟩
      · simp only [applyCreditOp, Leader.add_leader_credit, hd, if_false]
        simp [List.length_append]
        omega
      · simp only [applyCreditOp, Leader.add_leader_credit, hd, if_false]
        simpa [List.concat_eq_append] using hnd.concat hd
  | colead d =>
    by_cases hd : d ∈ l.trip_dates
    · simpa [applyCreditOp, Leader.add_coleader_credit, hd, creditInv] using ⟨hsum, hnd⟩
    · refine ⟨?_, ?_⟩
      · simp only [applyCreditOp, Leader.add_coleader_credit, hd, if_false]
        simp [List.length_append]
        omega
      · simp only [applyCreditOp, Leader.add_coleader_credit, hd, if_false]
        simpa [List.concat_eq_append] using hnd.concat hd
  | cancel =>
    exact ⟨hsum, hnd⟩

lemma creditInv_foldl (ops : List CreditOp) :
    ∀ l : Leader, creditInv l → creditInv (ops.foldl applyCreditOp l) := by
  induction ops with
  | nil => exact fun l h => h
  | cons op ops ih =>
    intro l h
    exact ih (applyCreditOp l op) (creditInv_apply l op h)

end AmcTrips

namespace AmcTrips

/-- C1: a credit on a date already in `creditedDates` changes no counters and
leaves the date set unchanged, for both roles; a credit on a fresh date
increments exactly the role's counter and records the date; and because the
guard set is shared across roles, a lead credit followed by a co-lead credit on
the same date leaves `tripsAsCoLeader` unchanged (Scenario B: it stays 0). -/
theorem claim_C1 :
    (∀ (l : Leader) (d : String), d ∈ l.trip_dates →
      l.add_leader_credit d = l ∧ l.add_coleader_credit d = l) ∧
    (∀ (l : Leader) (d : String), d ∉ l.trip_dates →
      (l.add_leader_credit d).trips_as_leader = l.trips_as_leader + 1 ∧
      (l.add_leader_credit d).trips_as_coleader = l.trips_as_coleader ∧
      (l.add_leader_credit d).trips_cancelled = l.trips_cancelled ∧
      (l.add_leader_credit d).trip_dates = l.trip_dates ++ [d] ∧
      (l.add_coleader_credit d).trips_as_coleader = l.trips_as_coleader + 1 ∧
      (l.add_coleader_credit d).trips_as_leader = l.trips_as_leader ∧
      (l.add_coleader_credit d).trips_cancelled = l.trips_cancelled ∧
      (l.add_coleader_credit d).trip_dates = l.trip_dates ++ [d]) ∧
    (∀ (l : Leader) (d : String), d ∉ l.trip_dates →
      ((l.add_leader_credit d).add_coleader_credit d).trips_as_coleader =
        l.trips_as_coleader) := by
  refine ⟨fun l d hd => ⟨?_, ?_⟩, fun l d hd => ?_, fun l d hd => ?_⟩
  · simp [Leader.add_leader_credit, hd]
  · simp [Leader.add_coleader_credit, hd]
  · simp [Leader.add_leader_credit, Leader.add_coleader_credit, hd]
  · simp [Leader.add_leader_credit, Leader.add_coleader_credit, hd]

/-- Witness for C1 at concrete leaders: a duplicate lead credit is a no-op, a
fresh lead credit increments the lead counter, and a lead credit followed by a
co-lead credit on the same date leaves the co-lead counter at its initial
value. -/
theorem claim_C1_witness :
    ({ Leader.init (IdVal.ofString "7") "" with
        trip_dates := ["06/01/2023"] }.add_leader_credit "06/01/2023" =
      { Leader.init (IdVal.ofString "7") "" with trip_dates := ["06/01/2023"] }) ∧
    ((Leader.init (IdVal.ofString "7") "").add_leader_credit "06/01/2023").trips_as_leader =
      (Leader.init (IdVal.ofString "7") "").trips_as_leader + 1 ∧
    (((Leader.init (IdVal.ofString "7") "").add_leader_credit "06/01/2023").add_coleader_credit
        "06/01/2023").trips_as_coleader =
      (Leader.init (IdVal.ofString "7") "").trips_as_coleader :=
  ⟨(claim_C1.1 _ "06/01/2023" (by decide)).1,
   (claim_C1.2.1 _ "06/01/2023" (by decide)).1,
   claim_C1.2.2 _ "06/01/2023" (by decide)⟩

/-- C2 counterexample: the two inputs that the claim says normalize to the same
key in fact normalize to different keys, because each space character becomes
its own underscore (runs are not collapsed). -/
theorem claim_C2_cex :
    ¬ normalized_name "jane  q  public" = normalized_name "jane q public" := by
  decide

/-- C2 as amended: `normalized_name` lower-cases its input and replaces each
individual space character with an underscore, so a run of spaces yields a run
of underscores and the two inputs of the claim produce different keys. -/
theorem claim_C2 :
    normalized_name "Jane Q Public" = "jane_q_public" ∧
    normalized_name "jane q public" = "jane_q_public" ∧
    normalized_name "jane  q  public" = "jane__q__public" ∧
    normalized_name "jane  q  public" ≠ normalized_name "jane q public" := by
  refine ⟨?_, ?_, ?_, ?_⟩ <;> decide

/-! ### Helper lemmas about the heap and dictionaries -/

@[simp] lemma dictGet_dictSet_self {α β : Type} [DecidableEq α]
    (d : Dict α β) (k : α) (v : β) : dictGet (dictSet d k v) k = some v := by
  induction d with
  | nil => simp [dictSet, dictGet]
  | cons kv rest ih =>
    by_cases h : kv.1 = k
    · simp [dictSet, h, dictGet]
    · simp [dictSet, h, dictGet, ih]

@[simp] lemma length_listModify {α : Type} (s : List α) (i : Nat) (f : α → α) :
    (listModify s i f).length = s.length := by
  induction s generalizing i with
  | nil => rfl
  | cons x xs ih =>
    cases i with
    | zero => rfl
    | succ n => simp [listModify, ih]

lemma listModify_append_length {α : Type} (s : List α) (x : α) (f : α → α) :
    listModify (s ++ [x]) s.length f = s ++ [f x] := by
  induction s with
  | nil => rfl
  | cons y ys ih => simp [listModify, ih]

lemma get?_append_length {α : Type} (s : List α) (x : α) :
    (s ++ [x]).get? s.length = some x := by
  induction s with
  | nil => rfl
  | cons y ys ih => simp [ih]

@[simp] lemma add_leader_credit_known (l : Leader) (d : String) :
    (l.add_leader_credit d).known = l.known := by
  unfold Leader.add_leader_credit; split <;> rfl

@[simp] lemma add_leader_credit_id_num (l : Leader) (d : String) :
    (l.add_leader_credit d).id_num = l.id_num := by
  unfold Leader.add_leader_credit; split <;> rfl

@[simp] lemma add_leader_credit_names (l : Leader) (d : String) :
    (l.add_leader_credit d).names = l.names := by
  unfold Leader.add_leader_credit; split <;> rfl

@[simp] lemma add_coleader_credit_known (l : Leader) (d : String) :
    (l.add_coleader_credit d).known = l.known := by
  unfold Leader.add_coleader_credit; split <;> rfl

@[simp] lemma add_coleader_credit_id_num (l : Leader) (d : String) :
    (l.add_coleader_credit d).id_num = l.id_num := by
  unfold Leader.add_coleader_credit; split <;> rfl

@[simp] lemma add_coleader_credit_names (l : Leader) (d : String) :
    (l.add_coleader_credit d).names = l.names := by
  unfold Leader.add_coleader_credit; split <;> rfl

@[simp] lemma cancel_credit_known (l : Leader) : l.cancel_credit.known = l.known := rfl

@[simp] lemma cancel_credit_id_num (l : Leader) : l.cancel_credit.id_num = l.id_num := rfl

@[simp] lemma cancel_credit_names (l : Leader) : l.cancel_credit.names = l.names := rfl

@[simp] lemma add_name_id_num (l : Leader) (f ln mi : String) :
    (l.add_name f ln mi).id_num = l.id_num := by
  unfold Leader.add_name
  split
  · rfl
  · dsimp only
    split <;> split <;> rfl

@[simp] lemma add_name_known (l : Leader) (f ln mi : String) :
    (l.add_name f ln mi).known = l.known := by
  unfold Leader.add_name
  split
  · rfl
  · dsimp only
    split <;> split <;> rfl

/-- The per-leader function a `creditStep` applies at the resolved index. -/
def creditFun (role : Role) (status trip_date : String) (l : Leader) : Leader :=
  if status = "C" then l.cancel_credit
  else
    match role with
    | Role.lead => l.add_leader_credit trip_date
    | Role.colead => l.add_coleader_credit trip_date

lemma creditStep_eq (role : Role) (status trip_date : String) (idx : Nat) (st : AState) :
    creditStep role status trip_date idx st =
      { st with reg := st.reg.modifyAt idx (creditFun role status trip_date) } := rfl

@[simp] lemma creditFun_known (role : Role) (status trip_date : String) (l : Leader) :
    (creditFun role status trip_date l).known = l.known := by
  unfold creditFun; split
  · rfl
  · cases role <;> simp

@[simp] lemma creditFun_id_num (role : Role) (status trip_date : String) (l : Leader) :
    (creditFun role status trip_date l).id_num = l.id_num := by
  unfold creditFun; split
  · rfl
  · cases role <;> simp

@[simp] lemma creditFun_names (role : Role) (status trip_date : String) (l : Leader) :
    (creditFun role status trip_date l).names = l.names := by
  unfold creditFun; split
  · rfl
  · cases role <;> simp

lemma creditStep_store (role : Role) (status trip_date : String) (idx : Nat) (st : AState) :
    (creditStep role status trip_date idx st).reg.store =
      listModify st.reg.store idx (creditFun role status trip_date) := rfl

@[simp] lemma creditStep_byName (role : Role) (status trip_date : String) (idx : Nat)
    (st : AState) : (creditStep role status trip_date idx st).reg.byName = st.reg.byName := rfl

@[simp] lemma creditStep_byId (role : Role) (status trip_date : String) (idx : Nat)
    (st : AState) : (creditStep role status trip_date idx st).reg.byId = st.reg.byId := rfl

@[simp] lemma creditStep_next_fake_ID (role : Role) (status trip_date : String) (idx : Nat)
    (st : AState) :
    (creditStep role status trip_date idx st).next_fake_ID = st.next_fake_ID := rfl

@[simp] lemma synthRegister_store (st : AState) (normalized : String) (leader1 : Leader) :
    (synthRegister st normalized leader1).reg.store =
      st.reg.store ++ [{ leader1 with known := false }] := rfl

@[simp] lemma synthRegister_byName (st : AState) (normalized : String) (leader1 : Leader) :
    (synthRegister st normalized leader1).reg.byName =
      dictSet st.reg.byName normalized st.reg.store.length := rfl

@[simp] lemma synthRegister_next_fake_ID (st : AState) (normalized : String)
    (leader1 : Leader) :
    (synthRegister st normalized leader1).next_fake_ID = st.next_fake_ID - 1 := rfl

/-- C7: any sequence of lead credits, co-lead credits and cancellation credits
applied to a fresh leader keeps `tripsAsLeader + tripsAsCoLeader` equal to the
number of credited dates (the date list stays duplicate-free, so its length is
the cardinality of the credited-date set). -/
theorem claim_C7 (id : IdVal) (email : String) (ops : List CreditOp) :
    (ops.foldl applyCreditOp (Leader.init id email)).trips_as_leader +
        (ops.foldl applyCreditOp (Leader.init id email)).trips_as_coleader =
      (ops.foldl applyCreditOp (Leader.init id email)).trip_dates.length ∧
    (ops.foldl applyCreditOp (Leader.init id email)).trip_dates.Nodup :=
  creditInv_foldl ops (Leader.init id email) ⟨rfl, List.nodup_nil⟩

/-- The Scenario C trip row: cancelled status, one unregistered leader name. -/
def scenCTrip : Dict String String :=
  [("TripStatus", "C"), ("TripStartDate", "06/01/2023"),
   ("TripLeader1", "New Person"), ("TripLeader2", ""), ("TripLeader3", ""),
   ("TripLeader4", ""), ("TripCoLeader1", ""), ("TripCoLeader2", "")]

/-- C6: on a trip whose status is the cancelled code `C`, a resolved
participant in any slot has only `trips_cancelled` incremented — no date guard,
no role credit — and Scenario C ends with a synthesized leader carrying
`known = false`, `id = -1`, `tripsCancelled = 1`, `tripsAsLeader = 0`. -/
theorem claim_C6 :
    (∀ (role : Role) (date name : String) (st : AState) (idx : Nat),
      0 < name.length →
      dictGet st.reg.byName (normalized_name name) = some idx →
      processSlot role "C" date name st =
        Except.ok { st with reg := st.reg.modifyAt idx Leader.cancel_credit }) ∧
    analyze_trips [scenCTrip] Registry.empty =
      Except.ok
        { store := [{ id_num := IdVal.ofInt (-1), known := false, email := "",
                      names := ["new_person"], committees := [], trip_dates := [],
                      trips_as_leader := 0, trips_as_coleader := 0, trips_cancelled := 1 }],
          byName := [("new_person", 0)],
          byId := [(IdVal.ofInt (-1), 0)] } := by
  constructor
  · intro role date name st idx h0 hidx
    have hf : creditFun role "C" date = Leader.cancel_credit := by
      funext l
      simp [creditFun]
    simp [processSlot, h0, hidx, creditStep_eq, hf]
  · rfl

/-- Witness for C6: the universally quantified cancellation property applied to
a concrete registry holding one known leader. -/
theorem claim_C6_witness :
    processSlot Role.colead "C" "06/01/2023" "Jane Q Public"
        { reg := { store := [Leader.init (IdVal.ofString "7") ""],
                   byName := [("jane_q_public", 0)],
                   byId := [(IdVal.ofString "7", 0)] },
          next_fake_ID := -1 } =
      Except.ok
        { reg := Registry.modifyAt
            { store := [Leader.init (IdVal.ofString "7") ""],
              byName := [("jane_q_public", 0)],
              byId := [(IdVal.ofString "7", 0)] } 0 Leader.cancel_credit,
          next_fake_ID := -1 } :=
  claim_C6.1 Role.colead "06/01/2023" "Jane Q Public"
    { reg := { store := [Leader.init (IdVal.ofString "7") ""],
               byName := [("jane_q_public", 0)],
               byId := [(IdVal.ofString "7", 0)] },
      next_fake_ID := -1 } 0 (by decide) (by decide)

/-- C3 counterexample: a trip naming the unregistered single-word leader
`"Madonna"` makes the analysis raise `IndexError` (`parts[2]` on a one-part
split), so resolution does not return a Leader for every non-empty name. -/
theorem claim_C3_cex :
    analyze_trips
        [[("TripStatus", "O"), ("TripStartDate", "06/01/2023"),
          ("TripLeader1", "Madonna"), ("TripLeader2", ""), ("TripLeader3", ""),
          ("TripLeader4", ""), ("TripCoLeader1", ""), ("TripCoLeader2", "")]]
        Registry.empty =
      Except.error PyErr.indexError := by
  rfl

/-- C3 as amended: for a non-empty slot name whose normalized key is absent
from the by-name index, synthesis succeeds exactly when the key's
2-at-most-cuts underscore split has two or three parts: a new Leader is
appended with `known = false`, the current synthetic ID, and a name derived by
`add_name` from the split parts, and the key is registered in the by-name
index; a one-part split (single-word name) instead fails with `IndexError`. -/
theorem claim_C3 :
    (∀ (role : Role) (status date name : String) (st : AState),
      0 < name.length →
      dictGet st.reg.byName (normalized_name name) = none →
      (pySplit2 (normalized_name name)).length = 2 ∨
        (pySplit2 (normalized_name name)).length = 3 →
      ∃ st', processSlot role status date name st = Except.ok st' ∧
        st'.reg.store.length = st.reg.store.length + 1 ∧
        dictGet st'.reg.byName (normalized_name name) = some st.reg.store.length ∧
        ∃ l, st'.reg.store.get? st.reg.store.length = some l ∧
          l.known = false ∧
          l.id_num = IdVal.ofInt st.next_fake_ID ∧
          l.names =
            (match pySplit2 (normalized_name name) with
             | [p0, p1] => (Leader.init (IdVal.ofInt st.next_fake_ID) "").add_name p0 p1 ""
             | [p0, p1, p2] => (Leader.init (IdVal.ofInt st.next_fake_ID) "").add_name p0 p2 p1
             | _ => Leader.init (IdVal.ofInt st.next_fake_ID) "").names) ∧
    (∀ (role : Role) (status date name : String) (st : AState),
      0 < name.length →
      dictGet st.reg.byName (normalized_name name) = none →
      (pySplit2 (normalized_name name)).length = 1 →
      processSlot role status date name st = Except.error PyErr.indexError) := by
  constructor
  · intro role status date name st h0 hnone hlen
    have hsplit : (∃ a b, pySplit2 (normalized_name name) = [a, b]) ∨
        ∃ a b c, pySplit2 (normalized_name name) = [a, b, c] := by
      rcases hlen with h2 | h3
      · exact Or.inl (List.length_eq_two.mp h2)
      · exact Or.inr (List.length_eq_three.mp h3)
    rcases hsplit with ⟨a, b, hsp⟩ | ⟨a, b, c, hsp⟩
    · refine ⟨_, show processSlot role status date name st =
          Except.ok (creditStep role status date st.reg.store.length
            (synthRegister st (normalized_name name)
              ((Leader.init (IdVal.ofInt st.next_fake_ID) "").add_name a b "")))
          by simp [processSlot, h0, hnone, hsp], ?_, ?_, ?_⟩
      · simp [creditStep_store]
      · simp
      · refine ⟨creditFun role status date
            { (Leader.init (IdVal.ofInt st.next_fake_ID) "").add_name a b "" with
                known := false }, ?_, ?_, ?_, ?_⟩
        · rw [creditStep_store]
          simp only [synthRegister_store]
          rw [listModify_append_length]
          exact get?_append_length _ _
        · simp
        · simp [Leader.init]
        · simp [hsp]
    · refine ⟨_, show processSlot role status date name st =
          Except.ok (creditStep role status date st.reg.store.length
            (synthRegister st (normalized_name name)
              ((Leader.init (IdVal.ofInt st.next_fake_ID) "").add_name a c b)))
          by simp [processSlot, h0, hnone, hsp], ?_, ?_, ?_⟩
      · simp [creditStep_store]
      · simp
      · refine ⟨creditFun role status date
            { (Leader.init (IdVal.ofInt st.next_fake_ID) "").add_name a c b with
                known := false }, ?_, ?_, ?_, ?_⟩
        · rw [creditStep_store]
          simp only [synthRegister_store]
          rw [listModify_append_length]
          exact get?_append_length _ _
        · simp
        · simp [Leader.init]
        · simp [hsp]
  · intro role status date name st h0 hnone hlen
    obtain ⟨a, hsp⟩ := List.length_eq_one.mp hlen
    simp [processSlot, h0, hnone, hsp]

/-- Witness for C3: synthesis succeeds on the unregistered two-word name
`"New Person"` and fails with `IndexError` on the single-word `"Madonna"`, both
starting from the empty registry. -/
theorem claim_C3_witness :
    (∃ st', processSlot Role.lead "O" "06/01/2023" "New Person"
        { reg := Registry.empty, next_fake_ID := -1 } = Except.ok st' ∧
      st'.reg.store.length = Registry.empty.store.length + 1 ∧
      dictGet st'.reg.byName (normalized_name "New Person") =
        some Registry.empty.store.length ∧
      ∃ l, st'.reg.store.get? Registry.empty.store.length = some l ∧
        l.known = false ∧
        l.id_num = IdVal.ofInt (-1) ∧
        l.names =
          (match pySplit2 (normalized_name "New Person") with
           | [p0, p1] => (Leader.init (IdVal.ofInt (-1)) "").add_name p0 p1 ""
           | [p0, p1, p2] => (Leader.init (IdVal.ofInt (-1)) "").add_name p0 p2 p1
           | _ => Leader.init (IdVal.ofInt (-1)) "").names) ∧
    processSlot Role.lead "O" "06/01/2023" "Madonna"
        { reg := Registry.empty, next_fake_ID := -1 } =
      Except.error PyErr.indexError :=
  ⟨claim_C3.1 Role.lead "O" "06/01/2023" "New Person"
      { reg := Registry.empty, next_fake_ID := -1 } (by decide) (by decide)
      (Or.inl (by decide)),
   claim_C3.2 Role.lead "O" "06/01/2023" "Madonna"
      { reg := Registry.empty, next_fake_ID := -1 } (by decide) (by decide) (by decide)⟩

/-- `dictGetE` succeeds exactly on present keys. -/
lemma dictGetE_eq_ok {d : Dict String String} {k v : String} :
    dictGetE d k = Except.ok v ↔ dictGet d k = some v := by
  unfold dictGetE
  cases h : dictGet d k <;> simp

/-- C5: a data row whose field count differs from the header's is skipped by
the registry load (the load continues with the registry unchanged), but in the
trip load the same condition is NOT a skip: the empty row dictionary is
appended to `trips` and the immediately following `this_trip['Committee']`
lookup raises `KeyError`, aborting the remainder of the trip load. -/
theorem claim_C5 :
    (∀ (fields : List String) (reg : Registry) (row : List String),
      row.length ≠ fields.length → leaderRowStep fields reg row = Except.ok reg) ∧
    (∀ (fields : List String) (st : TripStats) (row : List String)
      (rest : List (List String)), row.length ≠ fields.length →
      loadTripsLoop fields st (row :: rest) = Except.error (PyErr.keyError "Committee")) := by
  constructor
  · intro fields reg row h
    simp [leaderRowStep, dictify, h]
  · intro fields st row rest h
    simp [loadTripsLoop, tripRowStep, dictify, h, dictGetE, dictGet]

/-- Witness for C5: a one-field row against a multi-field header is skipped by
the registry row step and aborts the trip-load loop with `KeyError`. -/
theorem claim_C5_witness :
    leaderRowStep ["ConstituentID", "Email"] Registry.empty ["x"] =
      Except.ok Registry.empty ∧
    loadTripsLoop ["Committee", "TripStartDate", "TripStatus"] TripStats.init [["x"]] =
      Except.error (PyErr.keyError "Committee") :=
  ⟨claim_C5.1 ["ConstituentID", "Email"] Registry.empty ["x"] (by decide),
   claim_C5.2 ["Committee", "TripStartDate", "TripStatus"] TripStats.init ["x"] []
     (by decide)⟩

/-! ### C9: status counting -/

/-- The sum of the four status counters. -/
def statusSum (st : TripStats) : Nat :=
  st.open_trips + st.full_trips + st.waitlisted_trips + st.cancelled_trips

/-- A loaded trip record whose status code is one of the four counted codes. -/
def goodStatus (t : Dict String String) : Prop :=
  ∃ s, dictGet t "TripStatus" = some s ∧ (s = "O" ∨ s = "F" ∨ s = "W" ∨ s = "C")

lemma tripRowStep_statusSum (fields : List String) (st st' : TripStats)
    (row : List String) (h : tripRowStep fields st row = Except.ok st') :
    ∃ t, st'.trips = st.trips ++ [t] ∧
      ((goodStatus t ∧ statusSum st' = statusSum st + 1) ∨
       (¬ goodStatus t ∧ statusSum st' = statusSum st)) := by
  simp only [tripRowStep] at h
  cases hc : dictGetE (dictify fields row) "Committee" with
  | error e => rw [hc] at h; exact absurd h (by simp)
  | ok this_committee =>
  rw [hc] at h
  dsimp only at h
  cases hd : dictGetE (dictify fields row) "TripStartDate" with
  | error e => rw [hd] at h; exact absurd h (by simp)
  | ok dateStr =>
  rw [hd] at h
  dsimp only at h
  cases hp : strptimeMDY dateStr with
  | error e => rw [hp] at h; exact absurd h (by simp)
  | ok this_date =>
  rw [hp] at h
  dsimp only at h
  cases hs : dictGetE (dictify fields row) "TripStatus" with
  | error e => rw [hs] at h; exact absurd h (by simp)
  | ok this_status =>
  rw [hs] at h
  dsimp only at h
  have hsome : dictGet (dictify fields row) "TripStatus" = some this_status :=
    dictGetE_eq_ok.mp hs
  have hX := Except.ok.inj h
  refine ⟨dictify fields row, ?_, ?_⟩
  · rw [← hX]
    split
    · rfl
    · split
      · rfl
      · split
        · rfl
        · split
          · rfl
          · rfl
  · by_cases h4 : this_status = "O" ∨ this_status = "F" ∨ this_status = "W" ∨
      this_status = "C"
    · left
      refine ⟨⟨this_status, hsome, h4⟩, ?_⟩
      rw [← hX]
      rcases h4 with h1 | h1 | h1 | h1 <;> subst h1 <;> simp [statusSum] <;> omega
    · right
      push_neg at h4
      obtain ⟨hO, hF, hW, hC⟩ := h4
      refine ⟨?_, ?_⟩
      · intro hgood
        obtain ⟨s, hg, hors⟩ := hgood
        rw [hsome] at hg
        have hse := Option.some.inj hg
        subst hse
        rcases hors with h1 | h1 | h1 | h1
        · exact hO h1
        · exact hF h1
        · exact hW h1
        · exact hC h1
      · rw [← hX]
        simp [statusSum, hO, hF, hW, hC]

/-- The invariant of C9 over the trip-load state. -/
def c9inv (st : TripStats) : Prop :=
  statusSum st ≤ st.trips.length ∧
  (statusSum st = st.trips.length ↔ ∀ t ∈ st.trips, goodStatus t)

lemma c9inv_step (fields : List String) (st st' : TripStats) (row : List String)
    (h : tripRowStep fields st row = Except.ok st') (hinv : c9inv st) : c9inv st' := by
  obtain ⟨hle, hiff⟩ := hinv
  obtain ⟨t, htr, hcase⟩ := tripRowStep_statusSum fields st st' row h
  rcases hcase with ⟨hg, hsum⟩ | ⟨hb, hsum⟩
  · constructor
    · rw [hsum, htr]
      simp only [List.length_append, List.length_singleton]
      omega
    · rw [hsum, htr]
      simp only [List.length_append, List.length_singleton, List.mem_append,
        List.mem_singleton]
      constructor
      · intro he t' ht'
        have hss : statusSum st = st.trips.length := by omega
        rcases ht' with hmem | hteq
        · exact hiff.mp hss t' hmem
        · rw [hteq]; exact hg
      · intro hall
        have : statusSum st = st.trips.length :=
          hiff.mpr (fun t' ht' => hall t' (Or.inl ht'))
        omega
  · constructor
    · rw [hsum, htr]
      simp only [List.length_append, List.length_singleton]
      omega
    · rw [hsum, htr]
      simp only [List.length_append, List.length_singleton, List.mem_append,
        List.mem_singleton]
      constructor
      · intro he
        omega
      · intro hall
        exact absurd (hall t (Or.inr rfl)) hb

lemma c9inv_loop (fields : List String) (rows : List (List String)) :
    ∀ (st st' : TripStats), loadTripsLoop fields st rows = Except.ok st' →
      c9inv st → c9inv st' := by
  induction rows with
  | nil =>
    intro st st' h hinv
    simp only [loadTripsLoop] at h
    exact (Except.ok.inj h) ▸ hinv
  | cons row rest ih =>
    intro st st' h hinv
    simp only [loadTripsLoop] at h
    cases hstep : tripRowStep fields st row with
    | error e => rw [hstep] at h; exact absurd h (by simp)
    | ok st1 =>
      rw [hstep] at h
      exact ih st1 st' h (c9inv_step fields st st1 row hstep hinv)

/-- C9: after a successful trip load, the four status counters sum to at most
the number of loaded trip records, with equality exactly when every loaded
record's `TripStatus` field is one of `O`, `F`, `W`, `C` (a record with any
other status code is counted in none of the four buckets). -/
theorem claim_C9 (rows : List (List String)) (st : TripStats)
    (h : load_trips rows = Except.ok st) :
    st.open_trips + st.full_trips + st.waitlisted_trips + st.cancelled_trips ≤
      st.trips.length ∧
    (st.open_trips + st.full_trips + st.waitlisted_trips + st.cancelled_trips =
        st.trips.length ↔ ∀ t ∈ st.trips, goodStatus t) := by
  have hinv : c9inv st := by
    unfold load_trips at h
    cases rows with
    | nil => exact absurd h (by simp)
    | cons fields rest =>
      refine c9inv_loop fields rest TripStats.init st h ?_
      constructor
      · exact Nat.le_refl 0
      · simp [statusSum, TripStats.init]
  obtain ⟨hle, hiff⟩ := hinv
  exact ⟨hle, hiff⟩

/-- Witness for C9: a concrete trip file with one counted (`O`) and one
uncounted (`X`) status loads to a state whose counter sum is strictly below the
trip count, as the theorem's inequality requires. -/
theorem claim_C9_witness :
    (let stW : TripStats :=
      { active_committees := [("Hiking", 2)],
        trips := [[("Committee", "Hiking"), ("TripStartDate", "06/01/2023"),
                   ("TripStatus", "O")],
                  [("Committee", "Hiking"), ("TripStartDate", "06/02/2023"),
                   ("TripStatus", "X")]],
        open_trips := 1, cancelled_trips := 0, waitlisted_trips := 0, full_trips := 0,
        earliest_trip := { year := 2023, month := 6, day := 1 },
        latest_trip := { year := 2023, month := 6, day := 2 } }
     stW.open_trips + stW.full_trips + stW.waitlisted_trips + stW.cancelled_trips ≤
       stW.trips.length) :=
  (claim_C9
    [["Committee", "TripStartDate", "TripStatus"],
     ["Hiking", "06/01/2023", "O"],
     ["Hiking", "06/02/2023", "X"]]
    { active_committees := [("Hiking", 2)],
      trips := [[("Committee", "Hiking"), ("TripStartDate", "06/01/2023"),
                 ("TripStatus", "O")],
                [("Committee", "Hiking"), ("TripStartDate", "06/02/2023"),
                 ("TripStatus", "X")]],
      open_trips := 1, cancelled_trips := 0, waitlisted_trips := 0, full_trips := 0,
      earliest_trip := { year := 2023, month := 6, day := 1 },
      latest_trip := { year := 2023, month := 6, day := 2 } }
    (by rfl)).1

/-! ### C8: synthetic-ID allocation -/

/-- The IDs held by the heap, in heap order. -/
def idsOf (reg : Registry) : List IdVal :=
  reg.store.map Leader.id_num

/-- `k` consecutive decreasing integer IDs starting at `c`. -/
def consecIds (c : Int) : Nat → List IdVal
  | 0 => []
  | k + 1 => IdVal.ofInt c :: consecIds (c - 1) k

lemma consecIds_eq_range_map (c : Int) (k : Nat) :
    consecIds c k = (List.range k).map (fun (n : Nat) => IdVal.ofInt (c - (n : Int))) := by
  induction k generalizing c with
  | zero => rfl
  | succ k ih =>
    rw [List.range_succ_eq_map, List.map_cons, List.map_map]
    simp only [consecIds]
    congr 1
    · simp
    · rw [ih (c - 1)]
      congr 1
      funext n
      simp only [Function.comp_apply]
      congr 1
      push_cast
      ring

lemma consecIds_append (c : Int) (k₁ k₂ : Nat) :
    consecIds c k₁ ++ consecIds (c - k₁) k₂ = consecIds c (k₁ + k₂) := by
  induction k₁ generalizing c with
  | zero => simp [consecIds]
  | succ k ih =>
    rw [show k + 1 + k₂ = (k + k₂) + 1 from by omega]
    simp only [consecIds, List.cons_append]
    rw [show (((k + 1 : Nat) : Int)) = (k : Int) + 1 from by push_cast; ring]
    rw [show c - ((k : Int) + 1) = c - 1 - (k : Int) from by ring]
    rw [ih (c - 1)]

/-- One analysis step extends the heap's ID list with a run of consecutive
decreasing synthetic IDs starting at the current counter, and moves the counter
past the run. -/
def synthExtends (st st' : AState) : Prop :=
  ∃ k : Nat, idsOf st'.reg = idsOf st.reg ++ consecIds st.next_fake_ID k ∧
    st'.next_fake_ID = st.next_fake_ID - k

lemma synthExtends_refl (st : AState) : synthExtends st st := by
  refine ⟨0, ?_, ?_⟩ <;> simp [consecIds]

lemma synthExtends_trans {a b c : AState} (h1 : synthExtends a b)
    (h2 : synthExtends b c) : synthExtends a c := by
  obtain ⟨k₁, hids₁, hc₁⟩ := h1
  obtain ⟨k₂, hids₂, hc₂⟩ := h2
  refine ⟨k₁ + k₂, ?_, ?_⟩
  · rw [hids₂, hids₁, hc₁, List.append_assoc, consecIds_append]
  · rw [hc₂, hc₁]
    push_cast
    omega

lemma map_id_num_listModify (s : List Leader) (i : Nat) (f : Leader → Leader)
    (hf : ∀ l, (f l).id_num = l.id_num) :
    (listModify s i f).map Leader.id_num = s.map Leader.id_num := by
  induction s generalizing i with
  | nil => rfl
  | cons x xs ih =>
    cases i with
    | zero => simp [listModify, hf]
    | succ n => simp [listModify, ih]

lemma idsOf_creditStep (role : Role) (status trip_date : String) (idx : Nat)
    (st : AState) : idsOf (creditStep role status trip_date idx st).reg = idsOf st.reg := by
  simp only [idsOf, creditStep_store]
  exact map_id_num_listModify _ _ _ (fun l => creditFun_id_num role status trip_date l)

lemma processSlot_synthExtends (role : Role) (status trip_date name : String)
    (st st' : AState) (h : processSlot role status trip_date name st = Except.ok st') :
    synthExtends st st' := by
  by_cases h0 : 0 < name.length
  · simp only [processSlot, h0, if_true, if_false] at h
    cases hl : dictGet st.reg.byName (normalized_name name) with
    | some idx =>
      rw [hl] at h
      dsimp only at h
      rw [← Except.ok.inj h]
      refine ⟨0, ?_, ?_⟩
      · simp [idsOf_creditStep, consecIds]
      · simp
    | none =>
      rw [hl] at h
      dsimp only at h
      cases hsp : pySplit2 (normalized_name name) with
      | nil => rw [hsp] at h; exact absurd h (by simp)
      | cons p0 ps =>
      cases ps with
      | nil => rw [hsp] at h; exact absurd h (by simp)
      | cons p1 ps' =>
      cases ps' with
      | nil =>
        rw [hsp] at h
        dsimp only at h
        rw [← Except.ok.inj h]
        refine ⟨1, ?_, ?_⟩
        · rw [idsOf_creditStep]
          simp [idsOf, consecIds, Leader.init]
        · simp
      | cons p2 ps'' =>
      cases ps'' with
      | nil =>
        rw [hsp] at h
        dsimp only at h
        rw [← Except.ok.inj h]
        refine ⟨1, ?_, ?_⟩
        · rw [idsOf_creditStep]
          simp [idsOf, consecIds, Leader.init]
        · simp
      | cons p3 ps''' => rw [hsp] at h; exact absurd h (by simp)
  · simp only [processSlot, h0, if_true, if_false] at h
    rw [← Except.ok.inj h]
    exact synthExtends_refl st

lemma processSlots_synthExtends (role : Role) (status trip_date : String)
    (names : List String) :
    ∀ (st st' : AState),
      processSlots role status trip_date st names = Except.ok st' → synthExtends st st' := by
  induction names with
  | nil =>
    intro st st' h
    simp only [processSlots] at h
    rw [← Except.ok.inj h]
    exact synthExtends_refl st
  | cons name rest ih =>
    intro st st' h
    simp only [processSlots] at h
    cases hstep : processSlot role status trip_date name st with
    | error e => rw [hstep] at h; exact absurd h (by simp)
    | ok st1 =>
      rw [hstep] at h
      exact synthExtends_trans
        (processSlot_synthExtends role status trip_date name st st1 hstep) (ih st1 st' h)

lemma processTrip_synthExtends (st st' : AState) (trip : Dict String String)
    (h : processTrip st trip = Except.ok st') : synthExtends st st' := by
  unfold processTrip at h
  cases h1 : dictGetE trip "TripStatus" with
  | error e => rw [h1] at h; exact absurd h (by simp)
  | ok status =>
  rw [h1] at h; dsimp only at h
  cases h2 : dictGetE trip "TripStartDate" with
  | error e => rw [h2] at h; exact absurd h (by simp)
  | ok trip_date =>
  rw [h2] at h; dsimp only at h
  cases h3 : dictGetE trip "TripLeader1" with
  | error e => rw [h3] at h; exact absurd h (by simp)
  | ok l1 =>
  cases h4 : dictGetE trip "TripLeader2" with
  | error e => rw [h3, h4] at h; exact absurd h (by simp)
  | ok l2 =>
  cases h5 : dictGetE trip "TripLeader3" with
  | error e => rw [h3, h4, h5] at h; exact absurd h (by simp)
  | ok l3 =>
  cases h6 : dictGetE trip "TripLeader4" with
  | error e => rw [h3, h4, h5, h6] at h; exact absurd h (by simp)
  | ok l4 =>
  rw [h3, h4, h5, h6] at h; dsimp only at h
  cases h7 : dictGetE trip "TripCoLeader1" with
  | error e => rw [h7] at h; exact absurd h (by simp)
  | ok c1 =>
  cases h8 : dictGetE trip "TripCoLeader2" with
  | error e => rw [h7, h8] at h; exact absurd h (by simp)
  | ok c2 =>
  rw [h7, h8] at h; dsimp only at h
  cases h9 : processSlots Role.lead status trip_date st [l1, l2, l3, l4] with
  | error e => rw [h9] at h; exact absurd h (by simp)
  | ok st1 =>
  rw [h9] at h; dsimp only at h
  exact synthExtends_trans
    (processSlots_synthExtends Role.lead status trip_date [l1, l2, l3, l4] st st1 h9)
    (processSlots_synthExtends Role.colead status trip_date [c1, c2] st1 st' h)

lemma negIds_eq_consecIds (k : Nat) :
    (List.range k).map (fun (n : Nat) => IdVal.ofInt (-((n : Int) + 1))) =
      consecIds (-1) k := by
  rw [consecIds_eq_range_map]
  congr 1
  funext n
  congr 1
  ring

lemma analyzeLoop_synthExtends (trips : List (Dict String String)) :
    ∀ (st st' : AState), analyzeLoop st trips = Except.ok st' → synthExtends st st' := by
  induction trips with
  | nil =>
    intro st st' h
    simp only [analyzeLoop] at h
    rw [← Except.ok.inj h]
    exact synthExtends_refl st
  | cons trip rest ih =>
    intro st st' h
    simp only [analyzeLoop] at h
    cases hstep : processTrip st trip with
    | error e => rw [hstep] at h; exact absurd h (by simp)
    | ok st1 =>
      rw [hstep] at h
      exact synthExtends_trans (processTrip_synthExtends st st1 trip hstep) (ih st1 st' h)

/-- C8: over one `analyze_trips` run, the heap gains exactly the synthesized
leaders, whose IDs in synthesis order are `-1, -2, ..., -k` (the n-th synthesis
gets ID `-n`); these synthetic IDs are pairwise distinct and differ from every
pre-existing registry ID that is a non-negative integer (registry IDs read
from the CSV are strings and so never collide at all). -/
theorem claim_C8 (trips : List (Dict String String)) (reg reg' : Registry)
    (h : analyze_trips trips reg = Except.ok reg') :
    ∃ k : Nat,
      reg'.store.map Leader.id_num =
        reg.store.map Leader.id_num ++
          (List.range k).map (fun (n : Nat) => IdVal.ofInt (-((n : Int) + 1))) ∧
      ((List.range k).map (fun (n : Nat) => IdVal.ofInt (-((n : Int) + 1)))).Nodup ∧
      ∀ v ∈ (List.range k).map (fun (n : Nat) => IdVal.ofInt (-((n : Int) + 1))),
        ∀ w ∈ reg.store.map Leader.id_num,
          (∀ m : Int, w = IdVal.ofInt m → 0 ≤ m) → v ≠ w := by
  unfold analyze_trips at h
  cases ha : analyzeLoop { reg := reg, next_fake_ID := -1 } trips with
  | error e => rw [ha] at h; exact absurd h (by simp)
  | ok stF =>
  rw [ha] at h
  dsimp only at h
  obtain ⟨k, hids, hc⟩ := analyzeLoop_synthExtends trips _ _ ha
  refine ⟨k, ?_, ?_, ?_⟩
  · have hre : reg'.store.map Leader.id_num = idsOf stF.reg := by
      rw [← Except.ok.inj h]
      rfl
    rw [hre, hids, negIds_eq_consecIds]
    rfl
  · refine List.Nodup.map ?_ (List.nodup_range k)
    intro a b hab
    have hinj := IdVal.ofInt.inj hab
    omega
  · intro v hv w hw hnn heq
    obtain ⟨n, hn, rfl⟩ := List.mem_map.mp hv
    have h0 := hnn (-((n : Int) + 1)) heq.symm
    omega

/-- Witness for C8: one trip naming two unregistered people (a leader slot and
a co-leader slot) synthesizes IDs `-1` and `-2`, in order, from the empty
registry. -/
theorem claim_C8_witness :
    ∃ k : Nat,
      ({ store :=
          [{ id_num := IdVal.ofInt (-1), known := false, email := "",
             names := ["new_person"], committees := [], trip_dates := ["06/01/2023"],
             trips_as_leader := 1, trips_as_coleader := 0, trips_cancelled := 0 },
           { id_num := IdVal.ofInt (-2), known := false, email := "",
             names := ["other_gal"], committees := [], trip_dates := ["06/01/2023"],
             trips_as_leader := 0, trips_as_coleader := 1, trips_cancelled := 0 }],
         byName := [("new_person", 0), ("other_gal", 1)],
         byId := [(IdVal.ofInt (-1), 0), (IdVal.ofInt (-2), 1)] } : Registry).store.map
          Leader.id_num =
        Registry.empty.store.map Leader.id_num ++
          (List.range k).map (fun (n : Nat) => IdVal.ofInt (-((n : Int) + 1))) ∧
      ((List.range k).map (fun (n : Nat) => IdVal.ofInt (-((n : Int) + 1)))).Nodup ∧
      ∀ v ∈ (List.range k).map (fun (n : Nat) => IdVal.ofInt (-((n : Int) + 1))),
        ∀ w ∈ Registry.empty.store.map Leader.id_num,
          (∀ m : Int, w = IdVal.ofInt m → 0 ≤ m) → v ≠ w :=
  claim_C8
    [[("TripStatus", "O"), ("TripStartDate", "06/01/2023"),
      ("TripLeader1", "New Person"), ("TripLeader2", ""), ("TripLeader3", ""),
      ("TripLeader4", ""), ("TripCoLeader1", "Other Gal"), ("TripCoLeader2", "")]]
    Registry.empty
    { store :=
        [{ id_num := IdVal.ofInt (-1), known := false, email := "",
           names := ["new_person"], committees := [], trip_dates := ["06/01/2023"],
           trips_as_leader := 1, trips_as_coleader := 0, trips_cancelled := 0 },
         { id_num := IdVal.ofInt (-2), known := false, email := "",
           names := ["other_gal"], committees := [], trip_dates := ["06/01/2023"],
           trips_as_leader := 0, trips_as_coleader := 1, trips_cancelled := 0 }],
      byName := [("new_person", 0), ("other_gal", 1)],
      byId := [(IdVal.ofInt (-1), 0), (IdVal.ofInt (-2), 1)] }
    (by rfl)

/-! ### C10: every stored name-key contains an underscore -/

/-- Every name-key held by a leader contains at least one underscore. -/
def NamesOk (l : Leader) : Prop :=
  ∀ n ∈ l.names, '_' ∈ n.data

/-- Every leader on a registry's heap satisfies `NamesOk`. -/
def RegNamesOk (reg : Registry) : Prop :=
  ∀ l ∈ reg.store, NamesOk l

lemma underscore_mem_normalized (s t : String) :
    '_' ∈ (normalized_name (s ++ " " ++ t)).data := by
  have h1 : ' ' ∈ (s ++ " ").data := by
    rw [String.data_append]
    exact List.mem_append_right _ (by decide)
  have hsp : ' ' ∈ (s ++ " " ++ t).data := by
    rw [String.data_append]
    exact List.mem_append_left _ h1
  have h2 := List.mem_map_of_mem Char.toLower hsp
  have h3 := List.mem_map_of_mem (fun c => if c = ' ' then '_' else c) h2
  have hc : (fun c => if c = ' ' then '_' else c) (Char.toLower ' ') = '_' := by decide
  rw [hc] at h3
  exact h3

lemma NamesOk_init (id : IdVal) (email : String) : NamesOk (Leader.init id email) := by
  intro n hn
  exact absurd hn (List.not_mem_nil n)

lemma NamesOk_add_name (l : Leader) (f ln mi : String) (h : NamesOk l) :
    NamesOk (l.add_name f ln mi) := by
  by_cases hz : f.length = 0 ∧ ln.length = 0
  · simpa [Leader.add_name, hz] using h
  · unfold Leader.add_name
    rw [if_neg hz]
    dsimp only
    by_cases hmi : 0 < mi.length
    · rw [if_pos hmi]
      split
      · exact h
      · intro n hn
        rcases List.mem_append.mp hn with h1 | h1
        · exact h n h1
        · rw [List.mem_singleton.mp h1]
          exact underscore_mem_normalized (f ++ " " ++ mi) ln
    · rw [if_neg hmi]
      split
      · exact h
      · intro n hn
        rcases List.mem_append.mp hn with h1 | h1
        · exact h n h1
        · rw [List.mem_singleton.mp h1]
          exact underscore_mem_normalized f ln

@[simp] lemma add_committee_names (l : Leader) (c : String) :
    (l.add_committee c).names = l.names := by
  unfold Leader.add_committee
  split <;> rfl

lemma NamesOk_of_names_eq {l l' : Leader} (he : l'.names = l.names) (h : NamesOk l) :
    NamesOk l' := by
  intro n hn
  rw [he] at hn
  exact h n hn

lemma NamesOk_creditFun (role : Role) (status trip_date : String) (l : Leader)
    (h : NamesOk l) : NamesOk (creditFun role status trip_date l) :=
  NamesOk_of_names_eq (creditFun_names role status trip_date l) h

lemma listModify_NamesOk (s : List Leader) (i : Nat) (f : Leader → Leader)
    (hf : ∀ l, NamesOk l → NamesOk (f l)) (h : ∀ l ∈ s, NamesOk l) :
    ∀ l ∈ listModify s i f, NamesOk l := by
  induction s generalizing i with
  | nil => intro l hl; exact absurd hl (List.not_mem_nil l)
  | cons x xs ih =>
    cases i with
    | zero =>
      intro l hl
      rcases List.mem_cons.mp hl with h1 | h1
      · rw [h1]; exact hf x (h x (List.mem_cons_self x xs))
      · exact h l (List.mem_cons_of_mem x h1)
    | succ n =>
      intro l hl
      rcases List.mem_cons.mp hl with h1 | h1
      · rw [h1]; exact h x (List.mem_cons_self x xs)
      · exact ih n (fun l' hl' => h l' (List.mem_cons_of_mem x hl')) l h1

lemma RegNamesOk_creditStep (role : Role) (status trip_date : String) (idx : Nat)
    (st : AState) (h : RegNamesOk st.reg) :
    RegNamesOk (creditStep role status trip_date idx st).reg := by
  intro l hl
  rw [creditStep_store] at hl
  exact listModify_NamesOk st.reg.store idx _
    (fun l' => NamesOk_creditFun role status trip_date l') h l hl

lemma RegNamesOk_synthRegister (st : AState) (key : String) (leader1 : Leader)
    (h : RegNamesOk st.reg) (h1 : NamesOk leader1) :
    RegNamesOk (synthRegister st key leader1).reg := by
  intro l hl
  rw [synthRegister_store] at hl
  rcases List.mem_append.mp hl with h2 | h2
  · exact h l h2
  · rw [List.mem_singleton.mp h2]
    exact NamesOk_of_names_eq rfl h1

lemma processSlot_NamesOk (role : Role) (status trip_date name : String)
    (st st' : AState) (h : processSlot role status trip_date name st = Except.ok st')
    (hreg : RegNamesOk st.reg) : RegNamesOk st'.reg := by
  by_cases h0 : 0 < name.length
  · simp only [processSlot, h0, if_true, if_false] at h
    cases hl : dictGet st.reg.byName (normalized_name name) with
    | some idx =>
      rw [hl] at h
      dsimp only at h
      rw [← Except.ok.inj h]
      exact RegNamesOk_creditStep role status trip_date idx st hreg
    | none =>
      rw [hl] at h
      dsimp only at h
      cases hsp : pySplit2 (normalized_name name) with
      | nil => rw [hsp] at h; exact absurd h (by simp)
      | cons p0 ps =>
      cases ps with
      | nil => rw [hsp] at h; exact absurd h (by simp)
      | cons p1 ps' =>
      cases ps' with
      | nil =>
        rw [hsp] at h
        dsimp only at h
        rw [← Except.ok.inj h]
        exact RegNamesOk_creditStep role status trip_date _ _
          (RegNamesOk_synthRegister st _ _ hreg
            (NamesOk_add_name _ p0 p1 "" (NamesOk_init _ "")))
      | cons p2 ps'' =>
      cases ps'' with
      | nil =>
        rw [hsp] at h
        dsimp only at h
        rw [← Except.ok.inj h]
        exact RegNamesOk_creditStep role status trip_date _ _
          (RegNamesOk_synthRegister st _ _ hreg
            (NamesOk_add_name _ p0 p2 p1 (NamesOk_init _ "")))
      | cons p3 ps''' => rw [hsp] at h; exact absurd h (by simp)
  · simp only [processSlot, h0, if_true, if_false] at h
    rw [← Except.ok.inj h]
    exact hreg

lemma processSlots_NamesOk (role : Role) (status trip_date : String)
    (names : List String) :
    ∀ (st st' : AState), processSlots role status trip_date st names = Except.ok st' →
      RegNamesOk st.reg → RegNamesOk st'.reg := by
  induction names with
  | nil =>
    intro st st' h hreg
    simp only [processSlots] at h
    rw [← Except.ok.inj h]
    exact hreg
  | cons name rest ih =>
    intro st st' h hreg
    simp only [processSlots] at h
    cases hstep : processSlot role status trip_date name st with
    | error e => rw [hstep] at h; exact absurd h (by simp)
    | ok st1 =>
      rw [hstep] at h
      exact ih st1 st' h (processSlot_NamesOk role status trip_date name st st1 hstep hreg)

lemma processTrip_NamesOk (st st' : AState) (trip : Dict String String)
    (h : processTrip st trip = Except.ok st') (hreg : RegNamesOk st.reg) :
    RegNamesOk st'.reg := by
  unfold processTrip at h
  cases h1 : dictGetE trip "TripStatus" with
  | error e => rw [h1] at h; exact absurd h (by simp)
  | ok status =>
  rw [h1] at h; dsimp only at h
  cases h2 : dictGetE trip "TripStartDate" with
  | error e => rw [h2] at h; exact absurd h (by simp)
  | ok trip_date =>
  rw [h2] at h; dsimp only at h
  cases h3 : dictGetE trip "TripLeader1" with
  | error e => rw [h3] at h; exact absurd h (by simp)
  | ok l1 =>
  cases h4 : dictGetE trip "TripLeader2" with
  | error e => rw [h3, h4] at h; exact absurd h (by simp)
  | ok l2 =>
  cases h5 : dictGetE trip "TripLeader3" with
  | error e => rw [h3, h4, h5] at h; exact absurd h (by simp)
  | ok l3 =>
  cases h6 : dictGetE trip "TripLeader4" with
  | error e => rw [h3, h4, h5, h6] at h; exact absurd h (by simp)
  | ok l4 =>
  rw [h3, h4, h5, h6] at h; dsimp only at h
  cases h7 : dictGetE trip "TripCoLeader1" with
  | error e => rw [h7] at h; exact absurd h (by simp)
  | ok c1 =>
  cases h8 : dictGetE trip "TripCoLeader2" with
  | error e => rw [h7, h8] at h; exact absurd h (by simp)
  | ok c2 =>
  rw [h7, h8] at h; dsimp only at h
  cases h9 : processSlots Role.lead status trip_date st [l1, l2, l3, l4] with
  | error e => rw [h9] at h; exact absurd h (by simp)
  | ok st1 =>
  rw [h9] at h; dsimp only at h
  exact processSlots_NamesOk Role.colead status trip_date [c1, c2] st1 st' h
    (processSlots_NamesOk Role.lead status trip_date [l1, l2, l3, l4] st st1 h9 hreg)

lemma analyzeLoop_NamesOk (trips : List (Dict String String)) :
    ∀ (st st' : AState), analyzeLoop st trips = Except.ok st' →
      RegNamesOk st.reg → RegNamesOk st'.reg := by
  induction trips with
  | nil =>
    intro st st' h hreg
    simp only [analyzeLoop] at h
    rw [← Except.ok.inj h]
    exact hreg
  | cons trip rest ih =>
    intro st st' h hreg
    simp only [analyzeLoop] at h
    cases hstep : processTrip st trip with
    | error e => rw [hstep] at h; exact absurd h (by simp)
    | ok st1 =>
      rw [hstep] at h
      exact ih st1 st' h (processTrip_NamesOk st st1 trip hstep hreg)

lemma Registry_modifyAt_NamesOk (reg : Registry) (i : Nat) (f : Leader → Leader)
    (hf : ∀ l, NamesOk l → NamesOk (f l)) (h : RegNamesOk reg) :
    RegNamesOk (reg.modifyAt i f) := by
  intro l hl
  exact listModify_NamesOk reg.store i f hf h l hl

lemma leaderForId_NamesOk (reg : Registry) (row_dict : Dict String String)
    (this_id : String) (reg1 : Registry) (idx : Nat)
    (h : leaderForId reg row_dict this_id = Except.ok (reg1, idx))
    (hreg : RegNamesOk reg) : RegNamesOk reg1 := by
  unfold leaderForId at h
  cases hl : dictGet reg.byId (IdVal.ofString this_id) with
  | some i =>
    rw [hl] at h
    dsimp only at h
    obtain ⟨h1, h2⟩ := Prod.mk.injEq _ _ _ _ ▸ Except.ok.inj h
    rw [← h1]
    exact hreg
  | none =>
    rw [hl] at h
    dsimp only at h
    cases he : dictGetE row_dict "Email" with
    | error e => rw [he] at h; exact absurd h (by simp)
    | ok this_email =>
      rw [he] at h
      dsimp only at h
      obtain ⟨h1, h2⟩ := Prod.mk.injEq _ _ _ _ ▸ Except.ok.inj h
      rw [← h1]
      intro l hl'
      rcases List.mem_append.mp hl' with h3 | h3
      · exact hreg l h3
      · rw [List.mem_singleton.mp h3]
        exact NamesOk_init _ _

lemma leaderRowStep_NamesOk (fields : List String) (reg : Registry)
    (row : List String) (reg' : Registry)
    (h : leaderRowStep fields reg row = Except.ok reg') (hreg : RegNamesOk reg) :
    RegNamesOk reg' := by
  by_cases hz : (dictify fields row).length ≠ 0
  · simp only [leaderRowStep] at h
    rw [if_pos hz] at h
    cases hcid : dictGetE (dictify fields row) "ConstituentID" with
    | error e => rw [hcid] at h; exact absurd h (by simp)
    | ok this_id =>
    rw [hcid] at h
    dsimp only at h
    cases hfi : leaderForId reg (dictify fields row) this_id with
    | error e => rw [hfi] at h; exact absurd h (by simp)
    | ok pr =>
    obtain ⟨reg1, idx⟩ := pr
    rw [hfi] at h
    dsimp only at h
    have hreg1 : RegNamesOk reg1 :=
      leaderForId_NamesOk reg (dictify fields row) this_id reg1 idx hfi hreg
    cases hf1 : dictGetE (dictify fields row) "FirstName" with
    | error e => rw [hf1] at h; exact absurd h (by simp)
    | ok fn =>
    cases hf2 : dictGetE (dictify fields row) "LastName" with
    | error e => rw [hf1, hf2] at h; exact absurd h (by simp)
    | ok ln =>
    cases hf3 : dictGetE (dictify fields row) "MiddleInitial" with
    | error e => rw [hf1, hf2, hf3] at h; exact absurd h (by simp)
    | ok mi =>
    rw [hf1, hf2, hf3] at h
    dsimp only at h
    cases hr1 : dictGetE (dictify fields row) "REFirstName" with
    | error e => rw [hr1] at h; exact absurd h (by simp)
    | ok rfn =>
    cases hr2 : dictGetE (dictify fields row) "RELastName" with
    | error e => rw [hr1, hr2] at h; exact absurd h (by simp)
    | ok rln =>
    cases hr3 : dictGetE (dictify fields row) "REMiddleInitial" with
    | error e => rw [hr1, hr2, hr3] at h; exact absurd h (by simp)
    | ok rmi =>
    rw [hr1, hr2, hr3] at h
    dsimp only at h
    cases hcm : dictGetE (dictify fields row) "Committee" with
    | error e => rw [hcm] at h; exact absurd h (by simp)
    | ok committee =>
    rw [hcm] at h
    dsimp only at h
    rw [← Except.ok.inj h]
    have hreg2 : RegNamesOk (reg1.modifyAt idx (fun l => l.add_name fn ln mi)) :=
      Registry_modifyAt_NamesOk reg1 idx _ (fun l hl => NamesOk_add_name l fn ln mi hl) hreg1
    have hreg3 : RegNamesOk
        ((reg1.modifyAt idx (fun l => l.add_name fn ln mi)).modifyAt idx
          (fun l => l.add_name rfn rln rmi)) :=
      Registry_modifyAt_NamesOk _ idx _ (fun l hl => NamesOk_add_name l rfn rln rmi hl) hreg2
    exact Registry_modifyAt_NamesOk _ idx _
      (fun l hl => NamesOk_of_names_eq (add_committee_names l committee) hl)
      (fun l hl => hreg3 l hl)
  · simp only [leaderRowStep] at h
    rw [if_neg hz] at h
    rw [← Except.ok.inj h]
    exact hreg

lemma loadLeadersLoop_NamesOk (fields : List String) (rows : List (List String)) :
    ∀ (reg reg' : Registry), loadLeadersLoop fields reg rows = Except.ok reg' →
      RegNamesOk reg → RegNamesOk reg' := by
  induction rows with
  | nil =>
    intro reg reg' h hreg
    simp only [loadLeadersLoop] at h
    rw [← Except.ok.inj h]
    exact hreg
  | cons row rest ih =>
    intro reg reg' h hreg
    simp only [loadLeadersLoop] at h
    cases hstep : leaderRowStep fields reg row with
    | error e => rw [hstep] at h; exact absurd h (by simp)
    | ok reg1 =>
      rw [hstep] at h
      exact ih reg1 reg' h (leaderRowStep_NamesOk fields reg row reg1 hstep hreg)

/-- The Scenario A registry rows: one known leader with identical current and
"RE" name triples. -/
def janeRows : List (List String) :=
  [["ConstituentID", "Email", "FirstName", "LastName", "MiddleInitial",
    "REFirstName", "RELastName", "REMiddleInitial", "Committee"],
   ["7", "A@x.org", "Jane", "Public", "Q", "Jane", "Public", "Q", "Hiking"]]

/-- The leader that loading `janeRows` produces. -/
def janeLeader : Leader :=
  { id_num := IdVal.ofString "7", known := true, email := "a@x.org",
    names := ["jane_q_public"], committees := ["Hiking"], trip_dates := [],
    trips_as_leader := 0, trips_as_coleader := 0, trips_cancelled := 0 }

/-- The registry that loading `janeRows` produces. -/
def janeRegistry : Registry :=
  { store := [janeLeader], byName := [("jane_q_public", 0)],
    byId := [(IdVal.ofString "7", 0)] }

/-- C10: `add_name` is a no-op when first and last name are both empty, and
every name-key it does store contains at least one underscore (the space it
joins parts with becomes an underscore under normalization); hence every
leader produced by registry load, or by trip analysis from a registry with
that property, has only underscore-bearing name-keys, and `split_name` on such
a leader's primary name always takes the list-producing branch, never the
raw-string branch that `fname`/`lname` would otherwise receive. -/
theorem claim_C10 :
    (∀ (l : Leader) (mi : String), l.add_name "" "" mi = l) ∧
    (∀ (rows : List (List String)) (reg : Registry),
      load_leaders rows = Except.ok reg → ∀ l ∈ reg.store, NamesOk l) ∧
    (∀ (trips : List (Dict String String)) (reg reg' : Registry),
      (∀ l ∈ reg.store, NamesOk l) → analyze_trips trips reg = Except.ok reg' →
      ∀ l ∈ reg'.store, NamesOk l) ∧
    (∀ l : Leader, NamesOk l → l.names ≠ [] →
      ∃ ps, Leader.split_name l.names.headI = SplitRes.parts ps) := by
  refine ⟨?_, ?_, ?_, ?_⟩
  · intro l mi
    simp [Leader.add_name]
  · intro rows reg h
    cases rows with
    | nil => exact absurd h (by simp [load_leaders])
    | cons fields rest =>
      refine loadLeadersLoop_NamesOk fields rest Registry.empty reg h ?_
      intro l hl
      exact absurd hl (List.not_mem_nil l)
  · intro trips reg reg' hreg h
    unfold analyze_trips at h
    cases ha : analyzeLoop { reg := reg, next_fake_ID := -1 } trips with
    | error e => rw [ha] at h; exact absurd h (by simp)
    | ok stF =>
      rw [ha] at h
      dsimp only at h
      rw [← Except.ok.inj h]
      exact analyzeLoop_NamesOk trips _ stF ha hreg
  · intro l h hne
    cases hl : l.names with
    | nil => exact absurd hl hne
    | cons n rest =>
      have hu : '_' ∈ n.data := h n (hl ▸ List.mem_cons_self n rest)
      refine ⟨(pySplit2 n).map pyCapitalize, ?_⟩
      simp [List.headI, Leader.split_name, hu]

/-- Witness for C10: the empty-name no-op on a concrete leader; the leader
loaded from the Scenario A registry rows has only underscore-bearing
name-keys; and `split_name` on its primary name yields a parts list. -/
theorem claim_C10_witness :
    dummyLeader.add_name "" "" "Q" = dummyLeader ∧
    NamesOk janeLeader ∧
    ∃ ps, Leader.split_name janeLeader.names.headI = SplitRes.parts ps :=
  have hN : NamesOk janeLeader :=
    claim_C10.2.1 janeRows janeRegistry (by rfl) janeLeader (by decide)
  ⟨claim_C10.1 dummyLeader "Q", hN,
   claim_C10.2.2.2 janeLeader hN (by decide)⟩

/-- C4: the `__main__` body never reaches the analysis or output phases. The
bare `exit()` on source line 334 runs right after `load_trips` returns, so on
every run — including one whose two inputs load successfully, as in the second
conjunct — no trip is analyzed and neither the leader summary nor the
committee summary is written (the writing code below the exit also references
the undefined names `trip_file_base` and `Active_Committees`). -/
theorem claim_C4 :
    (∀ (leaderRows tripRows : List (List String)),
      (mainRun leaderRows tripRows).analyzed = false ∧
      (mainRun leaderRows tripRows).leaderTableWritten = false ∧
      (mainRun leaderRows tripRows).committeeTableWritten = false) ∧
    ((mainRun janeRows
        [["Committee", "TripStartDate", "TripStatus", "TripLeader1", "TripLeader2",
          "TripLeader3", "TripLeader4", "TripCoLeader1", "TripCoLeader2"],
         ["Hiking", "06/01/2023", "O", "Jane Q Public", "", "", "", "", ""]]).loadedRegistry
        = some janeRegistry ∧
     (mainRun janeRows
        [["Committee", "TripStartDate", "TripStatus", "TripLeader1", "TripLeader2",
          "TripLeader3", "TripLeader4", "TripCoLeader1", "TripCoLeader2"],
         ["Hiking", "06/01/2023", "O", "Jane Q Public", "", "", "", "", ""]]).loadedTrips.isSome
        = true) := by
  constructor
  · intro leaderRows tripRows
    unfold mainRun
    cases load_leaders leaderRows with
    | error e => exact ⟨rfl, rfl, rfl⟩
    | ok reg =>
      cases load_trips tripRows with
      | error e => exact ⟨rfl, rfl, rfl⟩
      | ok st => exact ⟨rfl, rfl, rfl⟩
  · constructor
    · rfl
    · rfl

end AmcTrips
